import Mathlib

/-!
Verification of the groupme-download message-retrieval engine.

This file gives a shallow embedding of the program's data model
(`src/model.rs`), the cursor-based backward-pagination stream
`Client::get_messages` and the capped forward pagination
`Client::get_all_groups` (`src/client.rs`), and the JSON configuration
reading helpers (`src/cache.rs`), together with theorems about the
embedded definitions.

Modelling conventions:
- `chrono::DateTime<Utc>` timestamps are modelled as `Int` (Unix seconds);
  only their linear order is ever used by the program.
- The HTTP collaborator is modelled by the list of successive responses a
  run would receive: each element is `Except String GroupMessagesPage`
  (a decoded page, or a transport/decode failure).  An empty model list
  means the run was only observed for that many fetches.
- The async stream of `get_messages` is modelled by `streamRun`, which
  returns the emitted messages, the terminal error (if any), and the
  ordered trace of observable effects (`fetch` with the cursor used, and
  the 1-second `sleep` between page fetches).
- Rust's `str::contains` and `str::ends_with` are modelled on the
  character lists of the strings.
-/

namespace Groupme

/-- Substring containment, modelling Rust `str::contains` on char lists. -/
def strContains (s pat : String) : Bool :=
  decide (pat.toList <:+: s.toList)

/-- Suffix test, modelling Rust `str::ends_with` on char lists. -/
def strEndsWith (s pat : String) : Bool :=
  decide (pat.toList <:+ s.toList)

/-- An attachment on a `Message` (src/model.rs, enum `MessageAttachment`). -/
inductive MessageAttachment where
  | image (url : String)
  | linkedImage (url : String)
  | video (url : String) (preview_url : String)
  | file (url : String)
  | location (lat : String) (lon : String) (name : String)
  | split (token : String)
  | emoji (placeholder : String) (charmap : List (List String))
  | reply (user_id : String) (reply_id : String) (base_reply_id : String)
deriving DecidableEq

/-- A message in a group (src/model.rs, struct `Message`). -/
structure Message where
  id : String
  source_guid : String
  created_at : Int
  user_id : String
  group_id : String
  name : String
  avatar_url : Option String
  text : Option String
  system : Bool
  favorited_by : List String
  attachments : List MessageAttachment
deriving DecidableEq

/-- A page of messages in a group (src/model.rs, struct `GroupMessagesPage`). -/
structure GroupMessagesPage where
  count : Int
  messages : List Message
deriving DecidableEq

/-- The `before_id` for the next page during pagination, if one exists
(src/model.rs, `GroupMessagesPage::next_page_before_id`). -/
def GroupMessagesPage.next_page_before_id (p : GroupMessagesPage) : Option String :=
  p.messages.getLast?.map Message.id

/-- A member of a group (src/model.rs, struct `GroupMember`). -/
structure GroupMember where
  user_id : String
  nickname : String
  muted : Bool
  image_url : String
deriving DecidableEq

/-- A group's definition (src/model.rs, struct `Group`). -/
structure Group where
  id : String
  name : String
  type : String
  description : String
  creator_user_id : String
  image_url : Option String
  share_url : Option String
  created_at : Int
  updated_at : Int
  members : List GroupMember
deriving DecidableEq

/-- Download URL and extension of an attachment
(src/model.rs, `MessageAttachment::get_download_url_and_ext`). -/
def MessageAttachment.get_download_url_and_ext
    (a : MessageAttachment) : Option (String × String) :=
  match (match a with
         | .image url => some url
         | .linkedImage url => some url
         | .video url _ => some url
         | _ => none) with
  | none => none
  | some url =>
    if strContains url ".jpeg." then some (url, "jpeg")
    else if strContains url ".png." then some (url, "png")
    else if strEndsWith url ".mp4" then some (url, "mp4")
    else none

/-- One observable effect of a `get_messages` run: a page fetch carrying the
`before_id` cursor it was issued with, or a sleep of the given number of
seconds (src/client.rs lines 73 and 98). -/
inductive StreamAction where
  | fetch (before_id : Option String)
  | sleep (seconds : Nat)
deriving DecidableEq

/-- Result of running the `get_messages` stream to completion: the messages
it yielded, the ordered trace of fetches and sleeps it performed, and the
terminal error, if the run ended by propagating a fetch failure. -/
structure RunResult where
  emitted : List Message
  actions : List StreamAction
  err : Option String
deriving DecidableEq

/-- The per-page filtering loop of `get_messages` (src/client.rs lines
86-96): walk the page's messages in order; a message with
`created_at < oldest` terminates the whole stream (second component
`true`); a message with `created_at > newest` is skipped; any other
message is yielded. -/
def emitFromPage (oldest newest : Int) : List Message → List Message × Bool
  | [] => ([], false)
  | m :: rest =>
    if m.created_at < oldest then ([], true)
    else if newest < m.created_at then emitFromPage oldest newest rest
    else
      let r := emitFromPage oldest newest rest
      (m :: r.1, r.2)

/-- The pagination loop of the `get_messages` stream (src/client.rs lines
71-99), run against the list of successive fetch outcomes.  Each iteration
records a `fetch` action with the cursor it used; a failed fetch propagates
its error and terminates; an empty page (`next_page_before_id` is `none`)
terminates normally; otherwise the page is filtered by `emitFromPage`, and
if no in-page termination occurred the loop sleeps one second and continues
with the updated cursor. -/
def streamRun (oldest newest : Int) (before_id : Option String) :
    List (Except String GroupMessagesPage) → RunResult
  | [] => ⟨[], [], none⟩
  | f :: rest =>
    match f with
    | .error e => ⟨[], [.fetch before_id], some e⟩
    | .ok page =>
      match page.next_page_before_id with
      | none => ⟨[], [.fetch before_id], none⟩
      | some next =>
        let r := emitFromPage oldest newest page.messages
        if r.2 then ⟨r.1, [.fetch before_id], none⟩
        else
          let tail := streamRun oldest newest (some next) rest
          ⟨r.1 ++ tail.emitted, .fetch before_id :: .sleep 1 :: tail.actions, tail.err⟩

/-- The validation error message of `get_messages` (src/client.rs lines
61-65). -/
def validationMessage (newest oldest : Int) : String :=
  s!"Newest date {newest} must be later than oldest date {oldest}"

/-- `Client::get_messages` (src/client.rs lines 54-101): reject windows with
`newest <= oldest` before any fetch, otherwise run the pagination stream
starting from cursor `none`. -/
def get_messages (newest oldest : Int) (group_id : String)
    (fetches : List (Except String GroupMessagesPage)) : Except String RunResult :=
  if newest ≤ oldest then
    .error (validationMessage newest oldest)
  else
    .ok (streamRun oldest newest none fetches)

/-- A `get_messages` run over error-free pages, starting from cursor `none`. -/
def runPages (oldest newest : Int) (pages : List GroupMessagesPage) : RunResult :=
  streamRun oldest newest none (pages.map Except.ok)

/-- The cursors used by the successive page fetches of a run, in order. -/
def RunResult.fetchCursors (r : RunResult) : List (Option String) :=
  r.actions.filterMap fun a =>
    match a with
    | .fetch c => some c
    | .sleep _ => none

/-- The window membership test applied by `get_messages`:
`oldest <= created_at <= newest` (both bounds inclusive). -/
def inWindow (oldest newest : Int) (m : Message) : Bool :=
  decide (oldest ≤ m.created_at) && decide (m.created_at ≤ newest)

/-- A page is sorted newest-first: along `messages`, every later message's
`created_at` is less than or equal to every earlier one's. -/
abbrev pageSortedDesc (p : GroupMessagesPage) : Prop :=
  p.messages.Pairwise fun a b => b.created_at ≤ a.created_at

/-- Pages strictly decrease in time across page boundaries: every message
of a later page is strictly older than every message of an earlier page. -/
abbrev pagesStrictlyOlder (pages : List GroupMessagesPage) : Prop :=
  pages.Pairwise fun p q =>
    ∀ a ∈ p.messages, ∀ b ∈ q.messages, b.created_at < a.created_at

/-- A fetch outcome after which the pagination loop of `get_messages` keeps
going: a successfully decoded, non-empty page containing no message older
than `oldest`. -/
def continuesPage (oldest newest : Int) :
    Except String GroupMessagesPage → Bool
  | .error _ => false
  | .ok page =>
    !page.messages.isEmpty && !(emitFromPage oldest newest page.messages).2

/-- The loop body of `Client::get_all_groups` (src/client.rs lines 32-48),
run against the list of successive `/groups` responses.  Returns the
accumulated groups together with the `(page, per_page)` query pairs of the
fetches performed, in order.  An empty response stops the loop; otherwise
the response is appended and the loop stops if the accumulated count
exceeds 100. -/
def get_all_groups_loop (groups : List Group) (page : Nat) :
    List (List Group) → List Group × List (Nat × Nat)
  | [] => (groups, [])
  | resp :: rest =>
    if resp.isEmpty then (groups, [(page, 10)])
    else
      let groups2 := groups ++ resp
      if groups2.length > 100 then (groups2, [(page, 10)])
      else
        let t := get_all_groups_loop groups2 (page + 1) rest
        (t.1, (page, 10) :: t.2)

/-- `Client::get_all_groups` (src/client.rs lines 28-51): accumulate
forward from page 1 with `per_page = 10`. -/
def get_all_groups (responses : List (List Group)) :
    List Group × List (Nat × Nat) :=
  get_all_groups_loop [] 1 responses

/-- User configuration (src/config.rs, struct `Config`). -/
structure Config where
  api_token : String
  image_dir : String
deriving DecidableEq

/-- The cache/config directory helper (src/cache.rs, struct `Cache`). -/
structure Cache where
  cache_dir : String
  config_dir : String
deriving DecidableEq

/-- The configuration file path (src/cache.rs, `Cache::config_file_path`). -/
def Cache.config_file_path (c : Cache) : String :=
  c.config_dir ++ "/config.json"

/-- `read_json` (src/cache.rs lines 92-106).  The filesystem is modelled as
a map from path to the file's contents, when the file exists; JSON
deserialization (the external serde collaborator) is a parameter.  A
missing file yields `ok none`; an existing file is deserialized, a decode
failure propagating as an error. -/
def read_json {α : Type} (fs : String → Option String)
    (deserialize : String → Except String α) (filepath : String) :
    Except String (Option α) :=
  match fs filepath with
  | none => .ok none
  | some raw =>
    match deserialize raw with
    | .ok v => .ok (some v)
    | .error e => .error e

/-- `Cache::read_config` (src/cache.rs lines 59-62): read the configuration
file as JSON, if one exists. -/
def Cache.read_config (c : Cache) (fs : String → Option String)
    (deserialize : String → Except String Config) :
    Except String (Option Config) :=
  read_json fs deserialize c.config_file_path

/-- A message with the given identifier and creation time and all other
fields inert; used for concrete instances. -/
def msgAt (i : String) (t : Int) : Message :=
  ⟨i, "", t, "", "", "", none, none, false, [], []⟩

/-- A group with the given identifier and all other fields inert; used for
concrete instances. -/
def groupNamed (i : String) : Group :=
  ⟨i, "", "", "", "", none, none, 0, 0, []⟩

/-- C3: for every pair of instants with `newest <= oldest`, `get_messages`
fails immediately with the validation error, for every possible fetch
source alike — so the outcome is fixed before, and independently of, any
page fetch. -/
theorem get_messages_validation (newest oldest : Int) (group_id : String)
    (h : newest ≤ oldest) :
    ∀ fetches, get_messages newest oldest group_id fetches
      = Except.error (validationMessage newest oldest) := by
  intro fetches
  simp [get_messages, h]

/-- Witness for C3: the degenerate window `newest = oldest = 0` is rejected. -/
theorem get_messages_validation_witness :
    get_messages 0 0 "g" [] = Except.error (validationMessage 0 0) :=
  get_messages_validation 0 0 "g" (by decide) []

/-- C8: `read_config` returns `ok none` (absent, not an error) when the
configuration file does not exist, and propagates the decode error when the
file exists but its contents fail to deserialize. -/
theorem read_config_absent_or_decode (c : Cache) (fs : String → Option String)
    (deserialize : String → Except String Config) :
    (fs c.config_file_path = none →
        c.read_config fs deserialize = Except.ok none) ∧
    (∀ raw e, fs c.config_file_path = some raw → deserialize raw = Except.error e →
        c.read_config fs deserialize = Except.error e) := by
  constructor
  · intro h
    simp [Cache.read_config, read_json, h]
  · intro raw e h1 h2
    simp [Cache.read_config, read_json, h1, h2]

/-- Witness for C8: an absent file reads as `ok none`; a present but
undecodable file reads as the decode error. -/
theorem read_config_absent_or_decode_witness :
    Cache.read_config ⟨"c", "d"⟩ (fun _ => none) (fun _ => Except.error "bad")
        = Except.ok none ∧
    Cache.read_config ⟨"c", "d"⟩ (fun _ => some "junk") (fun _ => Except.error "bad")
        = Except.error "bad" :=
  ⟨(read_config_absent_or_decode ⟨"c", "d"⟩ (fun _ => none)
      (fun _ => Except.error "bad")).1 rfl,
   (read_config_absent_or_decode ⟨"c", "d"⟩ (fun _ => some "junk")
      (fun _ => Except.error "bad")).2 "junk" "bad" rfl rfl⟩

/-- Helper for C5: the alternation property is preserved when a fetch and a
1-second sleep are prepended to an action trace. -/
lemma alternate_cons (c : Option String) (l : List StreamAction)
    (h : ∀ i, i < l.length →
      (i % 2 = 0 → ∃ cc, l[i]? = some (StreamAction.fetch cc)) ∧
      (i % 2 = 1 → l[i]? = some (StreamAction.sleep 1))) :
    ∀ i, i < (StreamAction.fetch c :: StreamAction.sleep 1 :: l).length →
      (i % 2 = 0 → ∃ cc,
          (StreamAction.fetch c :: StreamAction.sleep 1 :: l)[i]?
            = some (StreamAction.fetch cc)) ∧
      (i % 2 = 1 →
          (StreamAction.fetch c :: StreamAction.sleep 1 :: l)[i]?
            = some (StreamAction.sleep 1)) := by
  intro i hi
  match i with
  | 0 => exact ⟨fun _ => ⟨c, by simp⟩, fun hodd => by simp at hodd⟩
  | 1 => exact ⟨fun heven => by simp at heven, fun _ => by simp⟩
  | n + 2 =>
    have hn : n < l.length := by simpa using hi
    have hmod : (n + 2) % 2 = n % 2 := by omega
    have := h n hn
    refine ⟨fun heven => ?_, fun hodd => ?_⟩
    · obtain ⟨cc, hcc⟩ := this.1 (by omega)
      exact ⟨cc, by simpa using hcc⟩
    · simpa using this.2 (by omega)

/-- C5: in every run of the `get_messages` stream, the action trace
alternates page fetches (even positions, starting at position 0: no sleep
precedes the first fetch) with 1-second sleeps (odd positions), so at least
the fixed 1-second interval elapses between the starts of any two
successive page fetches of the same run. -/
theorem stream_rate_limited (oldest newest : Int) :
    ∀ (fetches : List (Except String GroupMessagesPage)) (c : Option String)
      (i : Nat), i < (streamRun oldest newest c fetches).actions.length →
      (i % 2 = 0 → ∃ cc, (streamRun oldest newest c fetches).actions[i]?
          = some (StreamAction.fetch cc)) ∧
      (i % 2 = 1 → (streamRun oldest newest c fetches).actions[i]?
          = some (StreamAction.sleep 1)) := by
  intro fetches
  induction fetches with
  | nil =>
    intro c i hi
    simp [streamRun] at hi
  | cons f rest ih =>
    intro c i hi
    match f with
    | .error e =>
      simp only [streamRun] at hi ⊢
      match i, hi with
      | 0, _ => exact ⟨fun _ => ⟨c, rfl⟩, fun hodd => by simp at hodd⟩
    | .ok page =>
      cases hnp : page.next_page_before_id with
      | none =>
        simp only [streamRun, hnp] at hi ⊢
        match i, hi with
        | 0, _ => exact ⟨fun _ => ⟨c, rfl⟩, fun hodd => by simp at hodd⟩
      | some next =>
        by_cases hstop : (emitFromPage oldest newest page.messages).2
        · simp only [streamRun, hnp, if_pos hstop] at hi ⊢
          match i, hi with
          | 0, _ => exact ⟨fun _ => ⟨c, rfl⟩, fun hodd => by simp at hodd⟩
        · simp only [streamRun, hnp, if_neg hstop] at hi ⊢
          exact alternate_cons c _ (ih (some next)) i hi

/-- Witness for C5: a two-page run has trace fetch, sleep 1, fetch; position
1 is the 1-second sleep separating the two fetches. -/
theorem stream_rate_limited_witness :
    (streamRun 0 10 none
        [Except.ok ⟨1, [msgAt "a" 5]⟩, Except.ok ⟨1, [msgAt "b" 4]⟩]).actions[1]?
      = some (StreamAction.sleep 1) :=
  (stream_rate_limited 0 10
      [Except.ok ⟨1, [msgAt "a" 5]⟩, Except.ok ⟨1, [msgAt "b" 4]⟩]
      none 1 (by decide)).2 (by decide)

/-- Helper for C2: the first fetch of a non-exhausted run uses exactly the
cursor it was started with. -/
lemma streamRun_cursors_head (oldest newest : Int) (c : Option String)
    (f : Except String GroupMessagesPage)
    (rest : List (Except String GroupMessagesPage)) :
    (streamRun oldest newest c (f :: rest)).fetchCursors.head? = some c := by
  match f with
  | .error e => simp [streamRun, RunResult.fetchCursors]
  | .ok page =>
    cases hnp : page.next_page_before_id with
    | none => simp [streamRun, hnp, RunResult.fetchCursors]
    | some next =>
      by_cases hstop : (emitFromPage oldest newest page.messages).2
      · simp [streamRun, hnp, if_pos hstop, RunResult.fetchCursors]
      · simp [streamRun, hnp, if_neg hstop, RunResult.fetchCursors]

/-- Helper for C2: whenever a run performs a `(k+1)`-st fetch, the cursor of
that fetch is `next_page_before_id` of the `k`-th fetched page — computed
before any filtering of that page — and that page is non-empty. -/
lemma streamRun_cursor_advances (oldest newest : Int) :
    ∀ (k : Nat) (fetches : List (Except String GroupMessagesPage))
      (c : Option String) (pg : GroupMessagesPage),
      fetches[k]? = some (Except.ok pg) →
      k + 1 < (streamRun oldest newest c fetches).fetchCursors.length →
      (streamRun oldest newest c fetches).fetchCursors[k+1]?
          = some pg.next_page_before_id ∧ pg.messages ≠ [] := by
  intro k
  induction k with
  | zero =>
    intro fetches c pg hk hlen
    match fetches with
    | [] => simp at hk
    | f :: rest =>
      have hf : f = Except.ok pg := by simpa using hk
      subst hf
      cases hnp : pg.next_page_before_id with
      | none =>
        simp [streamRun, hnp, RunResult.fetchCursors] at hlen
      | some next =>
        have hne : pg.messages ≠ [] := by
          intro hnil
          simp [GroupMessagesPage.next_page_before_id, hnil] at hnp
        by_cases hstop : (emitFromPage oldest newest pg.messages).2
        · simp [streamRun, hnp, if_pos hstop, RunResult.fetchCursors] at hlen
        · refine ⟨?_, hne⟩
          simp only [streamRun, hnp, if_neg hstop, RunResult.fetchCursors] at hlen ⊢
          simp only [List.filterMap_cons] at hlen ⊢
          match rest with
          | [] => simp [streamRun] at hlen
          | f2 :: rest2 =>
            have hhead := streamRun_cursors_head oldest newest (some next) f2 rest2
            simp only [RunResult.fetchCursors] at hhead
            cases hc : (streamRun oldest newest (some next) (f2 :: rest2)).actions.filterMap
                (fun a => match a with
                  | StreamAction.fetch c => some c
                  | StreamAction.sleep _ => none) with
            | nil => rw [hc] at hhead; simp at hhead
            | cons x xs =>
              rw [hc] at hhead
              simp at hhead
              simp [hc, hhead, hnp]
  | succ k ih =>
    intro fetches c pg hk hlen
    match fetches with
    | [] => simp at hk
    | f :: rest =>
      have hk2 : rest[k]? = some (Except.ok pg) := by simpa using hk
      match f with
      | .error e =>
        simp [streamRun, RunResult.fetchCursors] at hlen
      | .ok page =>
        cases hnp : page.next_page_before_id with
        | none => simp [streamRun, hnp, RunResult.fetchCursors] at hlen
        | some next =>
          by_cases hstop : (emitFromPage oldest newest page.messages).2
          · simp [streamRun, hnp, if_pos hstop, RunResult.fetchCursors] at hlen
          · simp only [streamRun, hnp, if_neg hstop, RunResult.fetchCursors,
              List.filterMap_cons] at hlen ⊢
            have := ih rest (some next) pg hk2 (by
              simpa [RunResult.fetchCursors] using Nat.lt_of_succ_lt_succ (by simpa using hlen))
            simpa [RunResult.fetchCursors] using this

/-- C2: in every run of `get_messages` over error-free pages, the cursor
used to fetch page `k+1` equals the identifier of the last (oldest) message
of page `k`; no assumption is made about how page `k` was filtered, so the
cursor advances even when every message of page `k` was filtered out. -/
theorem cursor_advances (oldest newest : Int) (pages : List GroupMessagesPage)
    (k : Nat) (pg : GroupMessagesPage) (hk : pages[k]? = some pg)
    (hlen : k + 1 < (runPages oldest newest pages).fetchCursors.length) :
    ∃ last, pg.messages.getLast? = some last ∧
      (runPages oldest newest pages).fetchCursors[k+1]? = some (some last.id) := by
  have hk2 : (pages.map (Except.ok : GroupMessagesPage → Except String GroupMessagesPage))[k]?
      = some (Except.ok pg) := by
    simp [List.getElem?_map, hk]
  obtain ⟨hcur, hne⟩ := streamRun_cursor_advances oldest newest k
    (pages.map Except.ok) none pg hk2 hlen
  obtain ⟨last, hlast⟩ := Option.isSome_iff_exists.mp (List.getLast?_isSome.mpr hne)
  refine ⟨last, hlast, ?_⟩
  rw [runPages, hcur]
  simp [GroupMessagesPage.next_page_before_id, hlast]

/-- Witness for C2: the first page is entirely out of window (both messages
newer than `newest`), yet the second fetch's cursor is the identifier `"b"`
of the first page's last message. -/
theorem cursor_advances_witness :
    ∃ last, (GroupMessagesPage.mk 2 [msgAt "a" 20, msgAt "b" 15]).messages.getLast?
        = some last ∧
      (runPages 0 10 [⟨2, [msgAt "a" 20, msgAt "b" 15]⟩,
          ⟨1, [msgAt "c" 5]⟩]).fetchCursors[1]? = some (some last.id) :=
  cursor_advances 0 10 [⟨2, [msgAt "a" 20, msgAt "b" 15]⟩, ⟨1, [msgAt "c" 5]⟩]
    0 ⟨2, [msgAt "a" 20, msgAt "b" 15]⟩ (by simp) (by decide)

/-- Unfolding helper: one continuing iteration of the pagination loop (the
page decoded, non-empty, and free of messages older than `oldest`). -/
lemma streamRun_cons_continue (oldest newest : Int) (c : Option String)
    (page : GroupMessagesPage) (next : String)
    (rest : List (Except String GroupMessagesPage))
    (hnp : page.next_page_before_id = some next)
    (hstop : (emitFromPage oldest newest page.messages).2 = false) :
    streamRun oldest newest c (Except.ok page :: rest)
      = ⟨(emitFromPage oldest newest page.messages).1
            ++ (streamRun oldest newest (some next) rest).emitted,
         StreamAction.fetch c :: StreamAction.sleep 1
            :: (streamRun oldest newest (some next) rest).actions,
         (streamRun oldest newest (some next) rest).err⟩ := by
  simp [streamRun, hnp, hstop]

/-- Helper for C4 and C6: if every fetch outcome before index `k` lets the
pagination loop continue, and the `k`-th fetched page is empty, the run
performs exactly `k+1` fetches and terminates normally. -/
lemma streamRun_empty_page_stops (oldest newest : Int) :
    ∀ (k : Nat) (fetches : List (Except String GroupMessagesPage))
      (c : Option String) (pg : GroupMessagesPage),
      (∀ j, j < k → ∀ f, fetches[j]? = some f →
        continuesPage oldest newest f = true) →
      fetches[k]? = some (Except.ok pg) → pg.messages = [] →
      (streamRun oldest newest c fetches).fetchCursors.length = k + 1 ∧
        (streamRun oldest newest c fetches).err = none := by
  intro k
  induction k with
  | zero =>
    intro fetches c pg hcont hk hempty
    match fetches with
    | [] => simp at hk
    | f :: rest =>
      have hf : f = Except.ok pg := by simpa using hk
      subst hf
      have hnp : pg.next_page_before_id = none := by
        simp [GroupMessagesPage.next_page_before_id, hempty]
      simp [streamRun, hnp, RunResult.fetchCursors]
  | succ k ih =>
    intro fetches c pg hcont hk hempty
    match fetches with
    | [] => simp at hk
    | f :: rest =>
      have hc0 : continuesPage oldest newest f = true :=
        hcont 0 (by omega) f (by simp)
      match f with
      | .error e => simp [continuesPage] at hc0
      | .ok page =>
        simp only [continuesPage, Bool.and_eq_true, Bool.not_eq_true] at hc0
        have hne : page.messages ≠ [] := by
          intro hnil
          rw [hnil] at hc0
          simp at hc0
        obtain ⟨last, hlast⟩ := Option.isSome_iff_exists.mp
          (List.getLast?_isSome.mpr hne)
        have hnp : page.next_page_before_id = some last.id := by
          simp [GroupMessagesPage.next_page_before_id, hlast]
        have hstop : (emitFromPage oldest newest page.messages).2 = false := by
          simpa using hc0.2
        have hrec := ih rest (some last.id) pg
          (fun j hj f2 hf2 => hcont (j+1) (by omega) f2 (by simpa using hf2))
          (by simpa using hk) hempty
        rw [streamRun_cons_continue oldest newest c page last.id rest hnp hstop]
        simp only [RunResult.fetchCursors, List.filterMap_cons] at hrec ⊢
        exact ⟨by simp [hrec.1], hrec.2⟩

/-- C4: in every run of `get_messages` over error-free pages, if every page
before index `k` lets the loop continue and the page fetched at index `k`
is empty, then the run terminates normally (no terminal error) with exactly
`k+1` fetches performed — no further fetch is attempted. -/
theorem empty_page_terminates (oldest newest : Int)
    (pages : List GroupMessagesPage) (k : Nat) (pg : GroupMessagesPage)
    (hcont : ∀ j, j < k → ∀ q, pages[j]? = some q →
      continuesPage oldest newest (Except.ok q) = true)
    (hk : pages[k]? = some pg) (hempty : pg.messages = []) :
    (runPages oldest newest pages).fetchCursors.length = k + 1 ∧
      (runPages oldest newest pages).err = none := by
  have hk2 : (pages.map (Except.ok : GroupMessagesPage → Except String GroupMessagesPage))[k]?
      = some (Except.ok pg) := by
    simp [List.getElem?_map, hk]
  refine streamRun_empty_page_stops oldest newest k (pages.map Except.ok) none pg
    ?_ hk2 hempty
  intro j hj f hf
  simp only [List.getElem?_map] at hf
  cases hq : pages[j]? with
  | none => rw [hq] at hf; simp at hf
  | some q =>
    rw [hq] at hf
    simp at hf
    rw [← hf]
    exact hcont j hj q hq

/-- Witness for C4: one non-empty in-window page followed by an empty page;
the run performs exactly two fetches and ends without error. -/
theorem empty_page_terminates_witness :
    (runPages 0 10 [⟨1, [msgAt "a" 5]⟩, ⟨0, []⟩]).fetchCursors.length = 1 + 1 ∧
      (runPages 0 10 [⟨1, [msgAt "a" 5]⟩, ⟨0, []⟩]).err = none :=
  empty_page_terminates 0 10 [⟨1, [msgAt "a" 5]⟩, ⟨0, []⟩] 1 ⟨0, []⟩
    (fun j hj q hq => by
      match j, hj with
      | 0, _ =>
        have hq2 : (⟨1, [msgAt "a" 5]⟩ : GroupMessagesPage) = q := by simpa using hq
        subst hq2
        decide)
    (by decide) rfl

/-- C6: if every fetch outcome before index `k` lets the pagination loop
continue and the fetch at index `k` fails with error `e`, then the run ends
with terminal error `e`, having performed exactly `k+1` fetches (no retry,
no further fetch), and its emitted messages are exactly those of the run
over the first `k` (successful) fetches — nothing already emitted is lost
and nothing from the failed fetch is emitted. -/
theorem fetch_error_terminal (oldest newest : Int) :
    ∀ (k : Nat) (fetches : List (Except String GroupMessagesPage))
      (c : Option String) (e : String),
      (∀ j, j < k → ∀ f, fetches[j]? = some f →
        continuesPage oldest newest f = true) →
      fetches[k]? = some (Except.error e) →
      (streamRun oldest newest c fetches).err = some e ∧
      (streamRun oldest newest c fetches).fetchCursors.length = k + 1 ∧
      (streamRun oldest newest c fetches).emitted
        = (streamRun oldest newest c (fetches.take k)).emitted := by
  intro k
  induction k with
  | zero =>
    intro fetches c e hcont hk
    match fetches with
    | [] => simp at hk
    | f :: rest =>
      have hf : f = Except.error e := by simpa using hk
      subst hf
      simp [streamRun, RunResult.fetchCursors]
  | succ k ih =>
    intro fetches c e hcont hk
    match fetches with
    | [] => simp at hk
    | f :: rest =>
      have hc0 : continuesPage oldest newest f = true :=
        hcont 0 (by omega) f (by simp)
      match f with
      | .error e2 => simp [continuesPage] at hc0
      | .ok page =>
        simp only [continuesPage, Bool.and_eq_true, Bool.not_eq_true] at hc0
        have hne : page.messages ≠ [] := by
          intro hnil
          rw [hnil] at hc0
          simp at hc0
        obtain ⟨last, hlast⟩ := Option.isSome_iff_exists.mp
          (List.getLast?_isSome.mpr hne)
        have hnp : page.next_page_before_id = some last.id := by
          simp [GroupMessagesPage.next_page_before_id, hlast]
        have hstop : (emitFromPage oldest newest page.messages).2 = false := by
          simpa using hc0.2
        have hrec := ih rest (some last.id) e
          (fun j hj f2 hf2 => hcont (j+1) (by omega) f2 (by simpa using hf2))
          (by simpa using hk)
        rw [streamRun_cons_continue oldest newest c page last.id rest hnp hstop]
        refine ⟨hrec.1, ?_, ?_⟩
        · have := hrec.2.1
          simp only [RunResult.fetchCursors, List.filterMap_cons] at this ⊢
          simp [this]
        · have := hrec.2.2
          rw [List.take_succ_cons,
            streamRun_cons_continue oldest newest c page last.id (rest.take k) hnp hstop]
          simp [this]

/-- Witness for C6: one in-window page then a failed fetch; the single
message is retained, the error `"boom"` is terminal, and exactly two
fetches were performed. -/
theorem fetch_error_terminal_witness :
    (streamRun 0 10 none [Except.ok ⟨1, [msgAt "a" 5]⟩,
        Except.error "boom"]).err = some "boom" ∧
    (streamRun 0 10 none [Except.ok ⟨1, [msgAt "a" 5]⟩,
        Except.error "boom"]).fetchCursors.length = 1 + 1 ∧
    (streamRun 0 10 none [Except.ok ⟨1, [msgAt "a" 5]⟩,
        Except.error "boom"]).emitted
      = (streamRun 0 10 none ([Except.ok ⟨1, [msgAt "a" 5]⟩,
          Except.error "boom"].take 1)).emitted :=
  fetch_error_terminal 0 10 1 [Except.ok ⟨1, [msgAt "a" 5]⟩, Except.error "boom"]
    none "boom"
    (fun j hj f hf => by
      match j, hj with
      | 0, _ =>
        have hf2 : Except.ok (⟨1, [msgAt "a" 5]⟩ : GroupMessagesPage) = f := by
          simpa using hf
        subst hf2
        decide)
    (by simp)

/-- Helper for C7: from a point where `page + n = 12` fetches remain within
the cap and every remaining response is a full page of 10 groups, the loop
performs exactly `n` more fetches with consecutive page numbers and
accumulates all of them, stopping because the 101st group has been
exceeded. -/
lemma get_all_groups_loop_full :
    ∀ (n : Nat) (responses : List (List Group)) (groups : List Group)
      (page : Nat),
      1 ≤ n → n ≤ 11 → page + n = 12 → groups.length = 10 * (page - 1) →
      (∀ j, j < n → (responses[j]?).map List.length = some 10) →
      get_all_groups_loop groups page responses
        = (groups ++ (responses.take n).flatten,
           (List.range n).map fun i => (page + i, 10)) := by
  intro n
  induction n with
  | zero => intro responses groups page h1 _; exact absurd h1 (by omega)
  | succ m ih =>
    intro responses groups page _ hn11 hpage hg hresp
    obtain ⟨p, rest, rfl⟩ : ∃ p rest, responses = p :: rest := by
      have := hresp 0 (by omega)
      cases responses with
      | nil => simp at this
      | cons a t => exact ⟨a, t, rfl⟩
    have hp10 : p.length = 10 := by simpa using hresp 0 (by omega)
    have hpe : p.isEmpty = false := by
      cases p with
      | nil => simp at hp10
      | cons a t => simp
    by_cases hm : m = 0
    · subst hm
      have hpage11 : page = 11 := by omega
      have hcap : (groups ++ p).length > 100 := by
        rw [List.length_append, hp10, hg, hpage11]
        omega
      simp only [get_all_groups_loop, hpe, Bool.false_eq_true, if_false,
        if_pos hcap, Prod.mk.injEq]
      exact ⟨by simp, by rw [List.range_succ_eq_map]; simp⟩
    · have hm1 : 1 ≤ m := by omega
      have hpage1 : 1 ≤ page := by omega
      have hcap : ¬ (groups ++ p).length > 100 := by
        rw [List.length_append, hp10, hg]
        omega
      have hrec := ih rest (groups ++ p) (page + 1) hm1 (by omega) (by omega)
        (by rw [List.length_append, hp10, hg]; omega)
        (fun j hj => by simpa using hresp (j + 1) (by omega))
      simp only [get_all_groups_loop, hpe, Bool.false_eq_true, if_false,
        if_neg hcap, hrec, Prod.mk.injEq]
      refine ⟨by simp [List.take_succ_cons], ?_⟩
      rw [List.range_succ_eq_map, List.map_cons, List.map_map]
      refine congrArg₂ List.cons (by simp) ?_
      apply List.map_congr_left
      intro a _
      rw [Function.comp_apply, Prod.mk.injEq]
      exact ⟨by omega, rfl⟩

/-- C7: for every source whose first eleven responses are full pages of 10
groups each, `get_all_groups` fetches forward with `per_page = 10` and page
numbers 1 through 11, accumulates exactly those 11 pages, and stops fetching
once the accumulated total (110) exceeds 100 — regardless of how many more
groups the source has. -/
theorem get_all_groups_cap (responses : List (List Group))
    (h : ∀ j, j < 11 → (responses[j]?).map List.length = some 10) :
    get_all_groups responses
      = ((responses.take 11).flatten, (List.range 11).map fun i => (i + 1, 10)) := by
  have h0 := get_all_groups_loop_full 11 responses [] 1 (by omega) (by omega)
    (by omega) (by simp) h
  rw [get_all_groups, h0, Prod.mk.injEq]
  refine ⟨by simp, ?_⟩
  apply List.map_congr_left
  intro a _
  rw [Prod.mk.injEq]
  exact ⟨by omega, rfl⟩

/-- Twelve full pages of ten groups each; a source with more groups than the
cap admits. -/
def twelveFullPages : List (List Group) :=
  List.replicate 12 (List.replicate 10 (groupNamed "g"))

/-- Witness for C7: on twelve full pages, only the first eleven are fetched
(pages 1..11, `per_page = 10`) and accumulated. -/
theorem get_all_groups_cap_witness :
    get_all_groups twelveFullPages
      = ((twelveFullPages.take 11).flatten,
         (List.range 11).map fun i => (i + 1, 10)) :=
  get_all_groups_cap twelveFullPages (by decide)

/-- Helper for C9: the accumulator never exceeds 110 when every response
page holds at most 10 groups and the accumulator starts at or below 100. -/
lemma get_all_groups_loop_le :
    ∀ (responses : List (List Group)) (groups : List Group) (page : Nat),
      (∀ p ∈ responses, p.length ≤ 10) → groups.length ≤ 100 →
      (get_all_groups_loop groups page responses).1.length ≤ 110 := by
  intro responses
  induction responses with
  | nil =>
    intro groups page h hg
    simpa [get_all_groups_loop] using by omega
  | cons p rest ih =>
    intro groups page h hg
    have hp10 : p.length ≤ 10 := h p (by simp)
    by_cases hpe : p.isEmpty
    · simp only [get_all_groups_loop, hpe, if_true]
      omega
    · simp only [Bool.not_eq_true] at hpe
      by_cases hcap : (groups ++ p).length > 100
      · simp only [get_all_groups_loop, hpe, Bool.false_eq_true, if_false,
          if_pos hcap]
        rw [List.length_append] at hcap ⊢
        omega
      · simp only [get_all_groups_loop, hpe, Bool.false_eq_true, if_false,
          if_neg hcap]
        refine ih (groups ++ p) (page + 1) (fun q hq => h q (by simp [hq])) ?_
        rw [List.length_append]
        rw [List.length_append] at hcap
        omega

/-- Eleven full pages of ten groups each. -/
def elevenFullPages : List (List Group) :=
  List.replicate 11 (List.replicate 10 (groupNamed "g"))

/-- C9: for every source whose pages hold at most 10 groups each, the list
returned by `get_all_groups` has at most 110 groups; and the bound is
reached — the cap check runs only after a whole page is appended, so eleven
full pages yield 110 accumulated groups, exceeding the stated cap of 100 by
one full page. -/
theorem get_all_groups_le_110 (responses : List (List Group))
    (h : ∀ p ∈ responses, p.length ≤ 10) :
    (get_all_groups responses).1.length ≤ 110 ∧
      (get_all_groups elevenFullPages).1.length = 110 := by
  constructor
  · exact get_all_groups_loop_le responses [] 1 h (by simp)
  · decide

/-- Witness for C9: eleven full pages stay within the 110 bound (and attain
it, by the second conjunct). -/
theorem get_all_groups_le_110_witness :
    (get_all_groups elevenFullPages).1.length ≤ 110 ∧
      (get_all_groups elevenFullPages).1.length = 110 :=
  get_all_groups_le_110 elevenFullPages (by decide)

/-- Helper for C1: nothing below `oldest` passes the window filter. -/
lemma filter_nil_of_lt (oldest newest : Int) (l : List Message)
    (h : ∀ m ∈ l, m.created_at < oldest) :
    l.filter (inWindow oldest newest) = [] := by
  rw [List.filter_eq_nil_iff]
  intro m hm
  have := h m hm
  simp only [inWindow, Bool.and_eq_true, decide_eq_true_eq, not_and]
  intro h2
  omega

/-- Helper for C1: on a page sorted newest-first, the in-page loop emits
exactly the in-window messages of the page, whether or not it terminated
inside the page: everything after an in-page terminator is older still, so
it is outside the window anyway. -/
lemma emitFromPage_sorted_eq_filter (oldest newest : Int) :
    ∀ l : List Message, l.Pairwise (fun a b => b.created_at ≤ a.created_at) →
      (emitFromPage oldest newest l).1 = l.filter (inWindow oldest newest) := by
  intro l
  induction l with
  | nil => intro _; simp [emitFromPage]
  | cons m rest ih =>
    intro hs
    obtain ⟨hall, hrest⟩ := List.pairwise_cons.mp hs
    by_cases h1 : m.created_at < oldest
    · have hw : inWindow oldest newest m = false := by
        simp only [inWindow, Bool.and_eq_false_iff, decide_eq_false_iff_not]
        left
        omega
      simp only [emitFromPage, if_pos h1, List.filter_cons, hw,
        Bool.false_eq_true, if_false]
      rw [filter_nil_of_lt oldest newest rest
        (fun q hq => by have := hall q hq; omega)]
    · by_cases h2 : newest < m.created_at
      · have hw : inWindow oldest newest m = false := by
          simp only [inWindow, Bool.and_eq_false_iff, decide_eq_false_iff_not]
          right
          omega
        simp only [emitFromPage, if_neg h1, if_pos h2, List.filter_cons, hw,
          Bool.false_eq_true, if_false]
        exact ih hrest
      · have hw : inWindow oldest newest m = true := by
          simp only [inWindow, Bool.and_eq_true, decide_eq_true_eq]
          omega
        simp only [emitFromPage, if_neg h1, if_neg h2, List.filter_cons, hw,
          if_true]
        rw [ih hrest]

/-- Helper for C1: when the in-page loop terminates inside a page, some
message of the page is older than `oldest`. -/
lemma emitFromPage_stopped_exists (oldest newest : Int) :
    ∀ l : List Message, (emitFromPage oldest newest l).2 = true →
      ∃ s ∈ l, s.created_at < oldest := by
  intro l
  induction l with
  | nil => intro h; simp [emitFromPage] at h
  | cons m rest ih =>
    intro h
    by_cases h1 : m.created_at < oldest
    · exact ⟨m, by simp, h1⟩
    · by_cases h2 : newest < m.created_at
      · simp only [emitFromPage, if_neg h1, if_pos h2] at h
        obtain ⟨s, hs, hlt⟩ := ih h
        exact ⟨s, by simp [hs], hlt⟩
      · simp only [emitFromPage, if_neg h1, if_neg h2] at h
        obtain ⟨s, hs, hlt⟩ := ih h
        exact ⟨s, by simp [hs], hlt⟩

/-- Helper for C1: a message older than `oldest` terminates the in-page
loop at the point it is reached; what was emitted, and whether the loop
stopped, are independent of everything after that message. -/
lemma emitFromPage_stop_append (oldest newest : Int) (pre post : List Message)
    (m : Message) (h : m.created_at < oldest) :
    emitFromPage oldest newest (pre ++ m :: post)
      = ((emitFromPage oldest newest pre).1, true) := by
  induction pre with
  | nil => simp [emitFromPage, h]
  | cons x xs ih =>
    by_cases h1 : x.created_at < oldest
    · simp [emitFromPage, if_pos h1]
    · by_cases h2 : newest < x.created_at
      · simp only [List.cons_append, emitFromPage, if_neg h1, if_pos h2]
        exact ih
      · simp only [List.cons_append, emitFromPage, if_neg h1, if_neg h2]
        simp [ih]

/-- Helper for C1: over sorted, strictly-decreasing pages, none empty except
possibly the last, the stream emits exactly the in-window messages of the
concatenated pages, in order. -/
lemma streamRun_pages_filter (oldest newest : Int) :
    ∀ (pages : List GroupMessagesPage) (c : Option String),
      (∀ p ∈ pages, pageSortedDesc p) →
      pagesStrictlyOlder pages →
      (∀ p ∈ pages.dropLast, p.messages ≠ []) →
      (streamRun oldest newest c (pages.map Except.ok)).emitted
        = ((pages.map GroupMessagesPage.messages).flatten).filter
            (inWindow oldest newest) := by
  intro pages
  induction pages with
  | nil => intro c _ _ _; simp [streamRun]
  | cons p rest ih =>
    intro c hsort hdec hne
    have hps : p.messages.Pairwise (fun a b => b.created_at ≤ a.created_at) :=
      hsort p (by simp)
    rw [List.map_cons, List.map_cons, List.flatten_cons]
    cases hnp : p.next_page_before_id with
    | none =>
      have hmsg : p.messages = [] := by
        by_contra hcon
        obtain ⟨last, hl⟩ := Option.isSome_iff_exists.mp
          (List.getLast?_isSome.mpr hcon)
        simp [GroupMessagesPage.next_page_before_id, hl] at hnp
      have hrest : rest = [] := by
        cases rest with
        | nil => rfl
        | cons q t =>
          exact absurd hmsg (hne p (by rw [List.dropLast_cons₂]; simp))
      subst hrest
      simp [streamRun, hnp, hmsg]
    | some next =>
      by_cases hstop : (emitFromPage oldest newest p.messages).2 = true
      · obtain ⟨s, hs_mem, hs_lt⟩ :=
          emitFromPage_stopped_exists oldest newest p.messages hstop
        have hfr : ((rest.map GroupMessagesPage.messages).flatten).filter
            (inWindow oldest newest) = [] := by
          apply filter_nil_of_lt
          intro m hm
          rw [List.mem_flatten] at hm
          obtain ⟨l, hl, hml⟩ := hm
          rw [List.mem_map] at hl
          obtain ⟨q, hq, rfl⟩ := hl
          have := (List.pairwise_cons.mp hdec).1 q hq s hs_mem m hml
          omega
        rw [List.filter_append, hfr, List.append_nil,
          ← emitFromPage_sorted_eq_filter oldest newest p.messages hps]
        simp [streamRun, hnp, hstop]
      · rw [Bool.not_eq_true] at hstop
        rw [streamRun_cons_continue oldest newest c p next (rest.map Except.ok)
          hnp hstop]
        have hne2 : ∀ q ∈ rest.dropLast, q.messages ≠ [] := by
          intro q hq
          apply hne
          cases rest with
          | nil => simp at hq
          | cons x t =>
            rw [List.dropLast_cons₂]
            exact List.mem_cons_of_mem p hq
        rw [ih (some next) (fun q hq => hsort q (List.mem_cons_of_mem p hq))
          (List.pairwise_cons.mp hdec).2 hne2]
        rw [List.filter_append,
          emitFromPage_sorted_eq_filter oldest newest p.messages hps]

/-- C1 (amended): for every window and every sequence of pages, each sorted
descending by `created_at`, strictly decreasing across page boundaries, and
with every page except possibly the last non-empty (an empty page signals
exhausted history and ends the run), the stream emits exactly the messages
with `oldest <= created_at <= newest`, in the original descending order;
moreover a message older than `oldest` terminates the run mid-page: the
run's entire outcome is independent of the rest of that page and of every
later fetch, and no further fetch or sleep is performed. -/
theorem get_messages_window_filter (oldest newest : Int)
    (pages : List GroupMessagesPage)
    (hsort : ∀ p ∈ pages, pageSortedDesc p)
    (hdec : pagesStrictlyOlder pages)
    (hne : ∀ p ∈ pages.dropLast, p.messages ≠ []) :
    (runPages oldest newest pages).emitted
        = ((pages.map GroupMessagesPage.messages).flatten).filter
            (inWindow oldest newest) ∧
      ∀ (cnt : Int) (pre post : List Message) (m : Message) (c : Option String)
        (rest : List (Except String GroupMessagesPage)),
        m.created_at < oldest →
        streamRun oldest newest c (Except.ok ⟨cnt, pre ++ m :: post⟩ :: rest)
          = ⟨(emitFromPage oldest newest pre).1, [StreamAction.fetch c], none⟩ := by
  constructor
  · exact streamRun_pages_filter oldest newest pages none hsort hdec hne
  · intro cnt pre post m c rest hm
    have hnil : pre ++ m :: post ≠ [] := by simp
    obtain ⟨last, hl⟩ := Option.isSome_iff_exists.mp
      (List.getLast?_isSome.mpr hnil)
    have hnp : (GroupMessagesPage.mk cnt (pre ++ m :: post)).next_page_before_id
        = some last.id := by
      simp [GroupMessagesPage.next_page_before_id, hl]
    have hstop := emitFromPage_stop_append oldest newest pre post m hm
    simp [streamRun, hnp, hstop]

/-- Witness for C1: a two-page history around the window `[0, 10]`; the
stream emits exactly the three in-window messages, newest first. -/
theorem get_messages_window_filter_witness :
    (runPages 0 10 [⟨2, [msgAt "a" 20, msgAt "b" 9]⟩,
        ⟨2, [msgAt "c" 5, msgAt "d" 0]⟩]).emitted
      = (([⟨2, [msgAt "a" 20, msgAt "b" 9]⟩,
          ⟨2, [msgAt "c" 5, msgAt "d" 0]⟩] : List GroupMessagesPage).map
            GroupMessagesPage.messages).flatten.filter (inWindow 0 10) :=
  (get_messages_window_filter 0 10
    [⟨2, [msgAt "a" 20, msgAt "b" 9]⟩, ⟨2, [msgAt "c" 5, msgAt "d" 0]⟩]
    (by decide) (by decide) (by decide)).1

/-- A page sequence with an empty page in the middle: each page is sorted
descending and pages strictly decrease across boundaries, yet the message
of the third page is silently never seen because the empty second page ends
the run. -/
def cexPages : List GroupMessagesPage :=
  [⟨1, [msgAt "a" 5]⟩, ⟨0, []⟩, ⟨1, [msgAt "b" 3]⟩]

/-- Counterexample to C1 as stated: `cexPages` satisfies the claim's
hypotheses (pages sorted descending, strictly decreasing across
boundaries), both messages lie inside the window `[0, 10]`, but the run
emits only the first one — the empty middle page terminates the run, so
the emitted sequence is not the full in-window subsequence. -/
theorem get_messages_window_filter_counterexample :
    (∀ p ∈ cexPages, pageSortedDesc p) ∧ pagesStrictlyOlder cexPages ∧
      (runPages 0 10 cexPages).emitted
        ≠ ((cexPages.map GroupMessagesPage.messages).flatten).filter
            (inWindow 0 10) := by
  refine ⟨by decide, by decide, by decide⟩

/-- Helper for C10: characterization of the extension-selection chain of
`get_download_url_and_ext`, first matching rule winning. -/
lemma ext_chain_iff (url u e : String) :
    (if strContains url ".jpeg." then some (url, "jpeg")
     else if strContains url ".png." then some (url, "png")
     else if strEndsWith url ".mp4" then some (url, "mp4")
     else none) = some (u, e) ↔
      (url = u ∧
        ((strContains u ".jpeg." = true ∧ e = "jpeg") ∨
         (strContains u ".jpeg." = false ∧ strContains u ".png." = true ∧
           e = "png") ∨
         (strContains u ".jpeg." = false ∧ strContains u ".png." = false ∧
           strEndsWith u ".mp4" = true ∧ e = "mp4"))) := by
  constructor
  · intro h
    split_ifs at h with h1 h2 h3
    · obtain ⟨rfl, rfl⟩ : url = u ∧ "jpeg" = e := by simpa using h
      exact ⟨rfl, Or.inl ⟨h1, rfl⟩⟩
    · obtain ⟨rfl, rfl⟩ : url = u ∧ "png" = e := by simpa using h
      exact ⟨rfl, Or.inr (Or.inl ⟨by simpa using h1, h2, rfl⟩)⟩
    · obtain ⟨rfl, rfl⟩ : url = u ∧ "mp4" = e := by simpa using h
      exact ⟨rfl, Or.inr (Or.inr
        ⟨by simpa using h1, by simpa using h2, h3, rfl⟩)⟩
  · rintro ⟨rfl, hcase⟩
    rcases hcase with ⟨h1, rfl⟩ | ⟨h1, h2, rfl⟩ | ⟨h1, h2, h3, rfl⟩
    · simp [h1]
    · simp [h1, h2]
    · simp [h1, h2, h3]

/-- C10: an attachment yields a download URL and extension exactly when it
is an `image`, `linkedImage`, or `video` whose URL contains `".jpeg."`
(extension `"jpeg"`), else contains `".png."` (extension `"png"`), else
ends with `".mp4"` (extension `"mp4"`) — the first matching rule deciding;
every other attachment variant or URL shape yields `none`. -/
theorem get_download_url_and_ext_spec (a : MessageAttachment) (u e : String) :
    a.get_download_url_and_ext = some (u, e) ↔
      ((a = MessageAttachment.image u ∨ a = MessageAttachment.linkedImage u ∨
          ∃ pv, a = MessageAttachment.video u pv) ∧
       ((strContains u ".jpeg." = true ∧ e = "jpeg") ∨
        (strContains u ".jpeg." = false ∧ strContains u ".png." = true ∧
          e = "png") ∨
        (strContains u ".jpeg." = false ∧ strContains u ".png." = false ∧
          strEndsWith u ".mp4" = true ∧ e = "mp4"))) := by
  cases a with
  | image url =>
    simp only [MessageAttachment.get_download_url_and_ext]
    rw [ext_chain_iff url u e]
    simp [MessageAttachment.image.injEq]
  | linkedImage url =>
    simp only [MessageAttachment.get_download_url_and_ext]
    rw [ext_chain_iff url u e]
    simp [MessageAttachment.linkedImage.injEq]
  | video url pv =>
    simp only [MessageAttachment.get_download_url_and_ext]
    rw [ext_chain_iff url u e]
    simp [MessageAttachment.video.injEq]
  | file url => simp [MessageAttachment.get_download_url_and_ext]
  | location lat lon name => simp [MessageAttachment.get_download_url_and_ext]
  | split token => simp [MessageAttachment.get_download_url_and_ext]
  | emoji ph cm => simp [MessageAttachment.get_download_url_and_ext]
  | reply uid rid brid => simp [MessageAttachment.get_download_url_and_ext]

end Groupme
